import Mathlib

/-!
Verification of the ShopSense behavioral-analytics pipeline.

Shallow embedding of the services in `backend/services/` —
`segmentation_service.py`, `affinity_service.py`, `sentiment_service.py`,
`recommendation_service.py` — over exact rational arithmetic (`ℚ` in place of
Python floats, `ℤ` day numbers in place of datetimes).  DataFrames are
embedded as lists of records; pandas/mlxtend/sklearn library calls are
modelled from their documented semantics where the service code delegates
to them (each such place is noted in the corresponding doc comment).
-/

attribute [local semireducible] Rat.add Rat.mul Rat.inv Rat.sub

namespace ShopSense

/-- Outcome of a raised Python exception.  The modelled code only ever
produces `valueError` (raised by pandas / sklearn / mlxtend library calls:
the repository itself raises nothing and defines no exception classes).
The constructors `insufficientData` and `invalidClusterCount` stand for the
`InsufficientDataError` / `InvalidClusterCountError` classes named by the
specification; they exist here only so that the spec-level claims can be
stated, since no such class exists anywhere in the source. -/
inductive PyError where
  | valueError (msg : String)
  | insufficientData
  | invalidClusterCount
deriving DecidableEq, Repr

instance {ε α : Type} [DecidableEq ε] [DecidableEq α] :
    DecidableEq (Except ε α) := fun x y =>
  match x, y with
  | .ok a, .ok b =>
    if h : a = b then isTrue (by rw [h])
    else isFalse (by intro he; cases he; exact h rfl)
  | .error a, .error b =>
    if h : a = b then isTrue (by rw [h])
    else isFalse (by intro he; cases he; exact h rfl)
  | .ok _, .error _ => isFalse (by intro he; cases he)
  | .error _, .ok _ => isFalse (by intro he; cases he)

/-- One transaction row, as consumed by the services: `customer_id`,
`product_name`, `category`, `date` (modelled as an integer day number),
`revenue` and `rating`.  (`quantity`/`unit_price` feed only `revenue`,
which the services read directly.) -/
structure Transaction where
  customer_id : String
  product_name : String
  category : String
  date : ℤ
  revenue : ℚ
  rating : ℚ
deriving DecidableEq, Repr

/-- Lexicographic comparison of char lists by code point (the order Python
uses on strings). -/
def charListLe : List Char → List Char → Bool
  | [], _ => true
  | _ :: _, [] => false
  | a :: as, b :: bs =>
    if a.val.toNat < b.val.toNat then true
    else if b.val.toNat < a.val.toNat then false
    else charListLe as bs

/-- String comparison by code points. -/
def strLe (a b : String) : Bool :=
  charListLe a.data b.data

/-- Ascending sort on strings (the key order used by `pandas.groupby`,
which sorts group keys). -/
def sortStr (l : List String) : List String :=
  List.insertionSort (fun a b => strLe a b = true) l

/-- The sorted list of distinct customer ids of a transaction list: the
index produced by `transactions_df.groupby('customer_id')`. -/
def sortedKeys (tx : List Transaction) : List String :=
  sortStr (tx.map (·.customer_id)).dedup

/-! ## Sentiment scorer (`sentiment_service.py`) -/

/-- `SentimentService.calculate_sentiment_scores`, score column:
`(rating - 1) / 4 * 100`. -/
def sentiment_score (rating : ℚ) : ℚ :=
  (rating - 1) / 4 * 100

/-- `categorize_sentiment` in `SentimentService.calculate_sentiment_scores`:
`Positive` for rating ≥ `POSITIVE_THRESHOLD` (4.0), `Neutral` for rating ≥
`NEGATIVE_THRESHOLD` (3.0), else `Negative`. -/
def categorize_sentiment (rating : ℚ) : String :=
  if 4 ≤ rating then "Positive"
  else if 3 ≤ rating then "Neutral"
  else "Negative"

/-- `SentimentService.calculate_sentiment_scores`: one
(sentiment_score, sentiment_label) pair per transaction row. -/
def calculate_sentiment_scores (tx : List Transaction) : List (ℚ × String) :=
  tx.map (fun t => (sentiment_score t.rating, categorize_sentiment t.rating))

/-! ## Segment naming (`segmentation_service.py`, `_profile_segments`) -/

/-- The ordered rule table of `SegmentationService._profile_segments`,
over the three booleans it computes per cluster; `recency` and
`segment_id` feed the last two branches. -/
def profile_segment_name (is_recent is_frequent is_high_value : Bool)
    (recency : ℚ) (segment_id : ℕ) : String :=
  if is_recent && is_frequent && is_high_value then "Champions"
  else if is_frequent && !is_high_value then "Loyal Customers"
  else if !is_frequent && is_high_value then "Big Spenders"
  else if !is_recent then "At Risk"
  else if is_recent && !is_frequent then "Value Seekers"
  else if recency < 30 then "New Customers"
  else "Segment " ++ toString segment_id

/-- `_profile_segments` body for one cluster row: the booleans are
comparisons of the cluster's mean recency/frequency/monetary against the
medians of the cluster means. -/
def profile_segment_name_of_means (recency frequency monetary
    median_recency median_frequency median_monetary : ℚ)
    (segment_id : ℕ) : String :=
  profile_segment_name (decide (recency < median_recency))
    (decide (median_frequency < frequency))
    (decide (median_monetary < monetary)) recency segment_id

/-! ## Market basket engine (`affinity_service.py`)

`AffinityService` delegates frequent-itemset mining to `mlxtend.apriori`
and rule generation to `mlxtend.association_rules`; both calls sit inside
`try/except` blocks that turn any raised exception into an empty result.
The mlxtend semantics modelled below is its documented contract:
`apriori` returns every non-empty itemset of size ≤ `max_len` whose
support (fraction of basket rows containing it) is at least `min_support`,
and raises `ValueError` when `min_support ≤ 0`; `association_rules` splits
each frequent itemset of size ≥ 2 into every non-empty
antecedent/consequent partition and keeps the rules whose chosen metric
(here `confidence`) reaches the threshold. -/

/-- Sorted distinct product names: the columns of the basket matrix
(`groupby(['customer_id', product_name]).size().unstack()` sorts both
levels). -/
def basket_products (tx : List Transaction) : List String :=
  sortStr (tx.map (·.product_name)).dedup

/-- `AffinityService.create_basket_matrix`: one row per customer, holding
the set of products that customer ever purchased (the positions of the 1
entries of the binary matrix row). -/
def basket_rows (tx : List Transaction) : List (List String) :=
  (sortedKeys tx).map (fun c =>
    (basket_products tx).filter (fun p =>
      tx.any (fun t => decide (t.customer_id = c) && decide (t.product_name = p))))

/-- Support of an itemset: fraction of basket rows containing every item.
(For an empty basket this is `0/0 = 0` in `ℚ`; mlxtend's `nan` likewise
fails every `≥ min_support` comparison.) -/
def supportOf (rows : List (List String)) (S : List String) : ℚ :=
  ((rows.countP (fun row => S.all (fun x => decide (x ∈ row)))) : ℚ) / (rows.length : ℚ)

/-- `AffinityService.find_frequent_itemsets` composed with the basket of
`tx`: for `min_support ≤ 0` mlxtend `apriori` raises `ValueError`, which
the service catches, returning the empty frame; otherwise the result is
every non-empty itemset of size ≤ `max_len` with support ≥ `min_support`,
paired with its support.  Itemsets are represented as sublists of the
sorted product list. -/
def find_frequent_itemsets (tx : List Transaction) (min_support : ℚ)
    (max_len : ℕ) : List (List String × ℚ) :=
  if min_support ≤ 0 then []
  else
    let rows := basket_rows tx
    (((basket_products tx).sublists.filter (fun S =>
        !S.isEmpty && decide (S.length ≤ max_len) &&
          decide (min_support ≤ supportOf rows S))).map
      (fun S => (S, supportOf rows S)))

/-- An association rule row as returned by `generate_association_rules`
(the metric columns the services read downstream). -/
structure RuleRec where
  antecedents : List String
  consequents : List String
  support : ℚ
  confidence : ℚ
  lift : ℚ
deriving DecidableEq, Repr

/-- All rules obtained from one frequent itemset `(S, sup)`: every
non-empty proper sub-itemset `A` as antecedent, the rest as consequent;
`confidence = sup / support(A)`, `lift = confidence / support(C)`.
mlxtend looks `support(A)`/`support(C)` up in the frequent-itemset table;
for `apriori` output that table is downward closed, so the value equals
the basket support computed here directly. -/
def rules_of_itemset (rows : List (List String)) (p : List String × ℚ) :
    List RuleRec :=
  ((p.1.sublists.filter (fun A => !A.isEmpty && decide (A ≠ p.1))).map
    (fun A =>
      let C := p.1.filter (fun x => decide (x ∉ A))
      let conf := p.2 / supportOf rows A
      { antecedents := A, consequents := C, support := p.2,
        confidence := conf, lift := conf / supportOf rows C }))

/-- `AffinityService.generate_association_rules` (on basket `rows`):
rules from every frequent itemset of size ≥ 2, filtered by
`confidence ≥ min_confidence` and — only when `min_lift > 0`, as in the
source — by `lift ≥ min_lift`, then sorted by lift descending. -/
def generate_association_rules (rows : List (List String))
    (freq : List (List String × ℚ)) (min_confidence min_lift : ℚ) :
    List RuleRec :=
  let raw := (freq.filter (fun p => decide (2 ≤ p.1.length))).flatMap
    (rules_of_itemset rows)
  let kept := raw.filter (fun r =>
    decide (min_confidence ≤ r.confidence) &&
      (decide (min_lift ≤ 0) || decide (min_lift ≤ r.lift)))
  List.insertionSort (fun a b => b.lift ≤ a.lift) kept

/-- The full mining pipeline `create_basket_matrix` →
`find_frequent_itemsets` → `generate_association_rules`
(spec interface `mine_baskets`). -/
def mine_baskets (tx : List Transaction)
    (min_support min_confidence min_lift : ℚ) : List RuleRec :=
  generate_association_rules (basket_rows tx)
    (find_frequent_itemsets tx min_support 2) min_confidence min_lift

/-- `AffinityService._frozerset_to_string`: sorted items joined by
a comma. -/
def frozen_to_string (s : List String) : String :=
  String.intercalate ", " (sortStr s)

/-- A bundle suggestion (`AffinityService.suggest_bundles` output row).
The source renders `estimated_lift` as the percent string
`f"{(lift - 1) * 100:.0f}%"`; the unrounded percent value is kept here. -/
structure SuggestedBundle where
  bundle_name : String
  products : List String
  affinity_score : ℚ
  confidence : ℚ
  support : ℚ
  estimated_lift_percent : ℚ
deriving DecidableEq, Repr

/-- `AffinityService.suggest_bundles`: early-return on an empty rule list,
else filter rules by `lift ≥ min_lift`, build bundle records, sort by
affinity score descending (Python's stable `list.sort`) and keep the top
`max_bundles`. -/
def suggest_bundles (rules : List RuleRec) (min_lift : ℚ)
    (max_bundles : ℕ) : List SuggestedBundle :=
  if rules.isEmpty then []
  else
    let high := rules.filter (fun r => decide (min_lift ≤ r.lift))
    let bundles := high.map (fun r =>
      { bundle_name := frozen_to_string r.antecedents ++ " + " ++
          frozen_to_string r.consequents,
        products := [frozen_to_string r.antecedents,
          frozen_to_string r.consequents],
        affinity_score := r.lift, confidence := r.confidence,
        support := r.support,
        estimated_lift_percent := (r.lift - 1) * 100 })
    (List.insertionSort (fun a b => b.affinity_score ≤ a.affinity_score)
      bundles).take max_bundles

/-! ## RFM feature extractor (`segmentation_service.py`,
`compute_rfm_scores`)

The pandas pieces are modelled exactly:
`rank(method='first')` gives each row `1 +` the number of rows that are
strictly smaller or equal-but-earlier; `pd.qcut(x, 5, labels, duplicates='drop')`
computes the 6 linearly-interpolated quantiles of `x` at
`0, 1/5, …, 1`, deduplicates them (`np.unique` sorts and drops
duplicates), raises `ValueError` when the number of bins no longer
matches the 5 supplied labels, and otherwise assigns each value the label
of its half-open bin (the lowest bin closed below); a value outside the
bins becomes `NaN`, which the subsequent `.astype(int)` rejects. -/

/-- One output row of `compute_rfm_scores`. -/
structure RFMRecord where
  customer_id : String
  recency : ℤ
  frequency : ℕ
  monetary : ℚ
  r_score : ℤ
  f_score : ℤ
  m_score : ℤ
  rfm_score : ℤ
deriving DecidableEq, Repr

/-- Maximum of a list of integers.  The `[]` case never arises in
`compute_rfm_scores`: every group is non-empty since its key comes from
the transactions themselves. -/
def list_max : List ℤ → ℤ
  | [] => 0
  | x :: xs => xs.foldl max x

/-- The aggregation row of one customer group:
`(customer_id, recency, frequency, monetary)` with
`recency = (reference_date - date.max()).days`,
`frequency = count`, `monetary = revenue.sum()`. -/
def row_of (tx : List Transaction) (reference_date : ℤ) (c : String) :
    String × ℤ × ℕ × ℚ :=
  let group := tx.filter (fun t => decide (t.customer_id = c))
  (c, reference_date - list_max (group.map (·.date)), group.length,
    (group.map (·.revenue)).sum)

/-- The aggregated frame `rfm` (one row per customer, keys sorted as by
`groupby`). -/
def rfm_rows (tx : List Transaction) (reference_date : ℤ) :
    List (String × ℤ × ℕ × ℚ) :=
  (sortedKeys tx).map (row_of tx reference_date)

/-- The list paired with 0-based positions (used by
`rank(method='first')`, which breaks ties by position). -/
def with_idx : List ℚ → ℕ → List (ℚ × ℕ)
  | [], _ => []
  | x :: xs, i => (x, i) :: with_idx xs (i + 1)

/-- `Series.rank(method='first', ascending=True)`: the rank of the entry
at position `i` with value `x` is `1 +` the number of entries that are
strictly smaller, or equal with a smaller position. -/
def rank_one (ys : List (ℚ × ℕ)) (x : ℚ) (i : ℕ) : ℕ :=
  ys.countP (fun q =>
    decide (q.1 < x) || (decide (q.1 = x) && decide (q.2 < i)))

/-- `rank(method='first')` over a whole column. -/
def rank_first (xs : List ℚ) : List ℚ :=
  let ys := with_idx xs 0
  ys.map (fun p => ((1 + rank_one ys p.1 p.2 : ℕ) : ℚ))

/-- The linearly-interpolated `q`-quantile of the pre-sorted list `s`
(pandas `Series.quantile`, interpolation `'linear'`):
position `q·(n−1)`, value `s[⌊pos⌋] + (pos − ⌊pos⌋)·(s[⌊pos⌋+1] − s[⌊pos⌋])`. -/
def quantileAt (s : List ℚ) (q : ℚ) : ℚ :=
  let pos : ℚ := q * ((s.length : ℚ) - 1)
  let i : ℕ := pos.floor.toNat
  let a := s.getD i 0
  let b := s.getD (i + 1) a
  a + (pos - (i : ℚ)) * (b - a)

/-- The six candidate bin edges of `pd.qcut(vs, 5)`: quantiles of `vs` at
`0, 1/5, 2/5, 3/5, 4/5, 1`. -/
def quantile_edges (vs : List ℚ) : List ℚ :=
  [0, 1/5, 2/5, 3/5, 4/5, 1].map (quantileAt (List.insertionSort (· ≤ ·) vs))

/-- `np.unique` over the edges: sort, then drop duplicates. -/
def uniq_edges (vs : List ℚ) : List ℚ :=
  (List.insertionSort (· ≤ ·) (quantile_edges vs)).dedup

/-- Bin index of value `v` for edge list `uniq` (pandas `cut` with
`right=True, include_lowest=True`): the number of non-leftmost edges
strictly below `v`, so `v ∈ (e_i, e_{i+1}]` lands in bin `i` and the
minimum lands in bin 0. -/
def bin_of (uniq : List ℚ) (v : ℚ) : ℕ :=
  (uniq.drop 1).countP (fun e => decide (e < v))

/-- Label assignment of one value: out-of-range values are `NaN`
categories, which the source's `.astype(int)` then rejects. -/
def score_one (uniq : List ℚ) (labels : List ℤ) (v : ℚ) : Except PyError ℤ :=
  if v < uniq.getD 0 0 ∨ uniq.getD (uniq.length - 1) 0 < v then
    .error (.valueError "Cannot convert non-finite values (NA or inf) to integer")
  else
    match labels.get? (bin_of uniq v) with
    | some l => .ok l
    | none => .error (.valueError "bin index out of range")

/-- Effectful map over a list in `Except` (the elementwise label
assignment; the first failure propagates). -/
def traverseE (f : α → Except PyError β) : List α → Except PyError (List β)
  | [] => .ok []
  | x :: xs => do
    let y ← f x
    let ys ← traverseE f xs
    .ok (y :: ys)

/-- `pd.qcut(vs, 5, labels=labels, duplicates='drop').astype(int)`:
compute and deduplicate the quantile edges, raise pandas'
`ValueError` when the bin count no longer matches the label count, else
label every value. -/
def qcut_first (vs : List ℚ) (labels : List ℤ) : Except PyError (List ℤ) :=
  let uniq := uniq_edges vs
  if uniq.length ≠ labels.length + 1 then
    .error (.valueError "Bin labels must be one fewer than the number of bin edges")
  else traverseE (score_one uniq labels) vs

/-- Zip the aggregation rows with the three score columns into records,
with `rfm_score = r_score * 100 + f_score * 10 + m_score`. -/
def mk_records : List (String × ℤ × ℕ × ℚ) → List ℤ → List ℤ → List ℤ →
    List RFMRecord
  | row :: rows, r :: rs, f :: fs, m :: ms =>
    { customer_id := row.1, recency := row.2.1, frequency := row.2.2.1,
      monetary := row.2.2.2, r_score := r, f_score := f, m_score := m,
      rfm_score := r * 100 + f * 10 + m } :: mk_records rows rs fs ms
  | _, _, _, _ => []

/-- `SegmentationService.compute_rfm_scores`: aggregate per customer,
rank each metric with `method='first'`, quintile-cut the ranks
(recency with inverted labels `[5,4,3,2,1]`, frequency and monetary with
`[1,2,3,4,5]`), and combine.  Any pandas `ValueError` propagates: the
source has no `try/except` here and raises no error of its own (in
particular no `InsufficientDataError`). -/
def compute_rfm_scores (tx : List Transaction) (reference_date : ℤ) :
    Except PyError (List RFMRecord) :=
  let rows := rfm_rows tx reference_date
  do
    let rs ← qcut_first (rank_first (rows.map (fun r => ((r.2.1 : ℚ)))))
      [5, 4, 3, 2, 1]
    let fs ← qcut_first (rank_first (rows.map (fun r => ((r.2.2.1 : ℚ)))))
      [1, 2, 3, 4, 5]
    let ms ← qcut_first (rank_first (rows.map (fun r => r.2.2.2)))
      [1, 2, 3, 4, 5]
    .ok (mk_records rows rs fs ms)

/-! ## Segmentation error model (`segment_customers`)

`SegmentationService.segment_customers` prepares the feature matrix
(`replace`/`fillna` raise nothing; over `ℚ` there are no non-finite
values to impute), scales it with `StandardScaler.fit_transform` — which
raises `ValueError` on an empty matrix — and calls
`KMeans(n_clusters=...).fit_predict`, which validates its parameters and
raises `ValueError` when `n_clusters < 1` or when
`n_samples < n_clusters` (sklearn's documented behavior).  The service
performs no validation of its own and defines no
`InvalidClusterCountError`.  Only the raised-error behavior is modelled
(`none` = the call proceeds into clustering); no claim depends on the
cluster assignment itself. -/
def segment_customers_raises (rfm : List RFMRecord) (n_clusters : ℕ) :
    Option PyError :=
  if rfm.length = 0 then
    some (.valueError "Found array with 0 sample(s) while a minimum of 1 is required by StandardScaler")
  else if n_clusters < 1 then
    some (.valueError "n_clusters should be an int in the range [1, inf)")
  else if rfm.length < n_clusters then
    some (.valueError "n_samples should be >= n_clusters")
  else none

/-! ## Recommendation composer (`recommendation_service.py`)

The generators below reproduce the control flow of
`RecommendationService.generate_recommendations` and its four private
generators: which candidate is emitted, with which id, category, priority
and timeline, under which condition on the inputs.  The free-text fields
(`title`, `description`, `expected_impact`, `data_support`,
`implementation_steps`) are format strings carrying no control flow and
are not modelled. -/

/-- One segment summary as produced by
`SegmentationService.get_segment_summary` (the fields the recommendation
generators read). -/
structure SegmentSummary where
  segment_name : String
  customer_count : ℕ
  total_revenue : ℚ
deriving DecidableEq, Repr

/-- One per-category sentiment row (`SentimentService.get_by_category`
output fields read downstream). -/
structure CategorySentiment where
  category : String
  sentiment_score : ℚ
  avg_rating : ℚ
deriving DecidableEq, Repr

/-- Sentiment analysis results consumed by the recommendation composer. -/
structure SentimentData where
  by_category : List CategorySentiment
  overall_score : ℚ
  negative_percentage : ℚ
deriving DecidableEq, Repr

/-- A candidate recommendation before ranking: id, category, priority,
timeline. -/
structure RecItem where
  id : String
  category : String
  priority : String
  timeline : String
deriving DecidableEq, Repr

/-- `RecommendationService._generate_merchandising_recommendations`:
MERCH-001 (High/Immediate) when there is a bundle, MERCH-002
(Medium/30 days) when there is an affinity rule. -/
def merchandising_recs (affinity_rules : List RuleRec)
    (bundles : List SuggestedBundle) : List RecItem :=
  (if bundles.isEmpty then [] else
    [⟨"MERCH-001", "Merchandising", "High", "Immediate"⟩]) ++
  (if affinity_rules.isEmpty then [] else
    [⟨"MERCH-002", "Merchandising", "Medium", "30 days"⟩])

/-- `RecommendationService._generate_marketing_recommendations`:
MKT-001/002/003 when a segment named Champions / At Risk / Value Seekers
exists. -/
def marketing_recs (segments : List SegmentSummary) : List RecItem :=
  (match segments.find? (fun s => decide (s.segment_name = "Champions")) with
    | some _ => [⟨"MKT-001", "Marketing", "High", "30 days"⟩]
    | none => []) ++
  (match segments.find? (fun s => decide (s.segment_name = "At Risk")) with
    | some _ => [⟨"MKT-002", "Marketing", "High", "Immediate"⟩]
    | none => []) ++
  (match segments.find? (fun s => decide (s.segment_name = "Value Seekers")) with
    | some _ => [⟨"MKT-003", "Marketing", "Medium", "30 days"⟩]
    | none => [])

/-- `RecommendationService._generate_sentiment_recommendations`:
SEN-001 when some category has sentiment score < 70, SEN-002 when the
overall score is < 60. -/
def sentiment_recs (sd : SentimentData) : List RecItem :=
  (if (sd.by_category.filter (fun c => decide (c.sentiment_score < 70))).isEmpty
    then []
    else [⟨"SEN-001", "Product", "High", "Immediate"⟩]) ++
  (if sd.overall_score < 60 then
    [⟨"SEN-002", "Customer Experience", "High", "60 days"⟩]
   else [])

/-- `RecommendationService._generate_product_recommendations`:
PROD-001 when some rule has lift > 2 and support < 0.1. -/
def product_recs (affinity_rules : List RuleRec) : List RecItem :=
  if (affinity_rules.filter (fun r =>
      decide (2 < r.lift) && decide (r.support < 1/10))).isEmpty then []
  else [⟨"PROD-001", "Product", "Medium", "90 days"⟩]

/-- The concatenation of the four generators, in the order
`generate_recommendations` extends its list. -/
def candidate_recs (segments : List SegmentSummary)
    (affinity_rules : List RuleRec) (sd : SentimentData)
    (bundles : List SuggestedBundle) : List RecItem :=
  merchandising_recs affinity_rules bundles ++ marketing_recs segments ++
    sentiment_recs sd ++ product_recs affinity_rules

/-- `priority_order.get(x['priority'], 2)`: High ↦ 0, Medium ↦ 1,
anything else (including Low) ↦ 2. -/
def priority_key (r : RecItem) : ℕ :=
  if r.priority = "High" then 0
  else if r.priority = "Medium" then 1
  else 2

instance : IsTotal RecItem (fun a b => priority_key a ≤ priority_key b) :=
  ⟨fun a b => Nat.le_total _ _⟩

instance : IsTrans RecItem (fun a b => priority_key a ≤ priority_key b) :=
  ⟨fun _ _ _ => Nat.le_trans⟩

/-- The sort step of `generate_recommendations`: Python's `list.sort` is
stable, which `List.insertionSort` on the priority key reproduces
(`orderedInsert` places an element before the first strictly-later key,
hence after nothing equal that preceded it). -/
def sort_recs (l : List RecItem) : List RecItem :=
  List.insertionSort (fun a b => priority_key a ≤ priority_key b) l

/-- The rank-assignment loop
`for i, rec in enumerate(recommendations, 1): rec['rank'] = i`. -/
def rank_items : ℕ → List RecItem → List (RecItem × ℕ)
  | _, [] => []
  | i, x :: xs => (x, i) :: rank_items (i + 1) xs

/-- `RecommendationService.generate_recommendations`: concatenate the four
generators, sort by priority, assign 1-based ranks. -/
def generate_recommendations (segments : List SegmentSummary)
    (affinity_rules : List RuleRec) (sd : SentimentData)
    (bundles : List SuggestedBundle) : List (RecItem × ℕ) :=
  rank_items 1 (sort_recs (candidate_recs segments affinity_rules sd bundles))

/-! ## Concrete inputs used by the scenario claims -/

/-- Three customers, two products, every customer buys both products
(spec §8 scenario). -/
def tx_three_by_two : List Transaction :=
  [⟨"C1", "A", "X", 0, 10, 5⟩, ⟨"C1", "B", "X", 0, 10, 5⟩,
   ⟨"C2", "A", "X", 0, 10, 5⟩, ⟨"C2", "B", "X", 0, 10, 5⟩,
   ⟨"C3", "A", "X", 0, 10, 5⟩, ⟨"C3", "B", "X", 0, 10, 5⟩]

/-- A single-customer, single-transaction input. -/
def tx_single : List Transaction :=
  [⟨"C1", "A", "X", 10, 100, 5⟩]

/-- Another single-customer input. -/
def tx_single_b : List Transaction :=
  [⟨"D1", "B", "Y", 3, 40, 4⟩]

/-- A two-customer input. -/
def tx_two : List Transaction :=
  [⟨"C1", "A", "X", 10, 100, 5⟩, ⟨"C2", "B", "X", 5, 50, 4⟩]

/-- Five customers with distinct recency, frequency-ties and distinct
monetary values. -/
def tx_five : List Transaction :=
  [⟨"C1", "A", "X", 19, 10, 5⟩, ⟨"C2", "A", "X", 18, 20, 5⟩,
   ⟨"C3", "A", "X", 17, 30, 5⟩, ⟨"C4", "A", "X", 16, 40, 5⟩,
   ⟨"C5", "A", "X", 15, 50, 5⟩]

/-- Two RFM records (the `compute_rfm_scores` output for `tx_two`). -/
def rfm_pair : List RFMRecord :=
  [⟨"C1", 10, 1, 100, 5, 1, 5, 515⟩, ⟨"C2", 15, 1, 50, 1, 5, 1, 151⟩]

/-! ## Theorems -/

theorem traverseE_cons (f : α → Except PyError β) (x : α) (xs : List α) :
    traverseE f (x :: xs) =
      (f x).bind (fun y => (traverseE f xs).bind
        (fun ys => .ok (y :: ys))) := rfl

theorem traverseE_ok_length {f : α → Except PyError β} {l : List α}
    {ys : List β} (h : traverseE f l = .ok ys) : ys.length = l.length := by
  induction l generalizing ys with
  | nil =>
    cases h
    rfl
  | cons x xs ih =>
    rw [traverseE_cons] at h
    cases hfx : f x with
    | error e => rw [hfx] at h; exact absurd h (by simp [Except.bind])
    | ok y =>
      rw [hfx] at h
      cases hrest : traverseE f xs with
      | error e => rw [hrest] at h; exact absurd h (by simp [Except.bind])
      | ok zs =>
        rw [hrest] at h
        simp only [Except.bind] at h
        cases h
        simp [ih hrest]

theorem traverseE_ok_get {f : α → Except PyError β} {l : List α}
    {ys : List β} (h : traverseE f l = .ok ys) :
    ∀ (i : ℕ) (x : α), l.get? i = some x →
      ∃ y, ys.get? i = some y ∧ f x = .ok y := by
  induction l generalizing ys with
  | nil => intro i x hx; simp at hx
  | cons a xs ih =>
    intro i x hx
    rw [traverseE_cons] at h
    cases hfx : f a with
    | error e => rw [hfx] at h; exact absurd h (by simp [Except.bind])
    | ok y =>
      rw [hfx] at h
      cases hrest : traverseE f xs with
      | error e => rw [hrest] at h; exact absurd h (by simp [Except.bind])
      | ok zs =>
        rw [hrest] at h
        simp only [Except.bind] at h
        cases h
        cases i with
        | zero =>
          simp at hx
          exact ⟨y, rfl, hx ▸ hfx⟩
        | succ j =>
          simp only [List.get?_cons_succ] at hx ⊢
          exact ih hrest j x hx

theorem traverseE_ok_mem {f : α → Except PyError β} {l : List α}
    {ys : List β} (h : traverseE f l = .ok ys) :
    ∀ y ∈ ys, ∃ x ∈ l, f x = .ok y := by
  induction l generalizing ys with
  | nil =>
    cases h
    intro y hy
    exact absurd hy (List.not_mem_nil _)
  | cons a xs ih =>
    rw [traverseE_cons] at h
    cases hfx : f a with
    | error e => rw [hfx] at h; exact absurd h (by simp [Except.bind])
    | ok y =>
      rw [hfx] at h
      cases hrest : traverseE f xs with
      | error e => rw [hrest] at h; exact absurd h (by simp [Except.bind])
      | ok zs =>
        rw [hrest] at h
        simp only [Except.bind] at h
        cases h
        intro b hb
        rcases List.mem_cons.1 hb with hb | hb
        · exact ⟨a, List.mem_cons_self _ _, hb ▸ hfx⟩
        · obtain ⟨x, hx, hfxb⟩ := ih hrest b hb
          exact ⟨x, List.mem_cons_of_mem _ hx, hfxb⟩

theorem qcut_first_ok_length {vs : List ℚ} {labels rs : List ℤ}
    (h : qcut_first vs labels = .ok rs) : rs.length = vs.length := by
  unfold qcut_first at h
  dsimp only at h
  by_cases hc : (uniq_edges vs).length ≠ labels.length + 1
  · rw [if_pos hc] at h; cases h
  · rw [if_neg hc] at h; exact traverseE_ok_length h

theorem with_idx_length (xs : List ℚ) : ∀ i, (with_idx xs i).length = xs.length := by
  induction xs with
  | nil => intro i; rfl
  | cons x xs ih => intro i; simp [with_idx, ih]

theorem rank_first_length (xs : List ℚ) : (rank_first xs).length = xs.length := by
  unfold rank_first
  rw [List.length_map, with_idx_length]

theorem mk_records_map_fst (rows : List (String × ℤ × ℕ × ℚ)) :
    ∀ rs fs ms : List ℤ, rows.length = rs.length → rows.length = fs.length →
      rows.length = ms.length →
      (mk_records rows rs fs ms).map (·.customer_id) = rows.map (·.1) := by
  induction rows with
  | nil => intro rs fs ms _ _ _; rfl
  | cons row rows ih =>
    intro rs fs ms hr hf hm
    cases rs with
    | nil => simp at hr
    | cons r rs =>
      cases fs with
      | nil => simp at hf
      | cons f fs =>
        cases ms with
        | nil => simp at hm
        | cons m ms =>
          simp only [mk_records, List.map_cons]
          rw [ih rs fs ms (by simpa using hr) (by simpa using hf)
            (by simpa using hm)]

/-- The successful run of `compute_rfm_scores`, unpacked into its three
quantile cuts. -/
theorem compute_rfm_ok_decomp {tx : List Transaction} {ref : ℤ}
    {recs : List RFMRecord} (h : compute_rfm_scores tx ref = .ok recs) :
    ∃ rs fs ms : List ℤ,
      qcut_first (rank_first ((rfm_rows tx ref).map
        (fun r => ((r.2.1 : ℚ))))) [5, 4, 3, 2, 1] = .ok rs ∧
      qcut_first (rank_first ((rfm_rows tx ref).map
        (fun r => ((r.2.2.1 : ℚ))))) [1, 2, 3, 4, 5] = .ok fs ∧
      qcut_first (rank_first ((rfm_rows tx ref).map
        (fun r => r.2.2.2))) [1, 2, 3, 4, 5] = .ok ms ∧
      recs = mk_records (rfm_rows tx ref) rs fs ms := by
  unfold compute_rfm_scores at h
  simp only [bind, Except.bind] at h
  cases hA : qcut_first (rank_first ((rfm_rows tx ref).map
      (fun r => ((r.2.1 : ℚ))))) [5, 4, 3, 2, 1] with
  | error e => rw [hA] at h; cases h
  | ok rs =>
    rw [hA] at h
    cases hB : qcut_first (rank_first ((rfm_rows tx ref).map
        (fun r => ((r.2.2.1 : ℚ))))) [1, 2, 3, 4, 5] with
    | error e => rw [hB] at h; cases h
    | ok fs =>
      rw [hB] at h
      cases hC : qcut_first (rank_first ((rfm_rows tx ref).map
          (fun r => r.2.2.2))) [1, 2, 3, 4, 5] with
      | error e => rw [hC] at h; cases h
      | ok ms =>
        rw [hC] at h
        cases h
        exact ⟨rs, fs, ms, rfl, rfl, rfl, rfl⟩

theorem with_idx_get (xs : List ℚ) :
    ∀ (k i : ℕ), (with_idx xs k).get? i = (xs.get? i).map (fun x => (x, k + i)) := by
  induction xs with
  | nil => intro k i; rfl
  | cons x xs ih =>
    intro k i
    cases i with
    | zero => rfl
    | succ j =>
      have h1 : (with_idx (x :: xs) k).get? (j + 1) =
          (with_idx xs (k + 1)).get? j := rfl
      have h2 : (x :: xs).get? (j + 1) = xs.get? j := rfl
      rw [h1, h2, ih (k + 1) j]
      cases xs.get? j with
      | none => rfl
      | some y =>
        have h3 : k + 1 + j = k + (j + 1) := by omega
        simp [h3]

theorem with_idx_mem (xs : List ℚ) :
    ∀ (k : ℕ) (p : ℚ × ℕ), p ∈ with_idx xs k →
      ∃ j, p.2 = k + j ∧ xs.get? j = some p.1 := by
  induction xs with
  | nil => intro k p hp; exact absurd hp (List.not_mem_nil _)
  | cons x xs ih =>
    intro k p hp
    rcases List.mem_cons.1 hp with hp | hp
    · exact ⟨0, by simp [hp], by simp [hp]⟩
    · obtain ⟨j, hj, hget⟩ := ih (k + 1) p hp
      exact ⟨j + 1, by omega, by simpa using hget⟩

theorem rank_first_get (xs : List ℚ) (i : ℕ) (x : ℚ)
    (hx : xs.get? i = some x) :
    (rank_first xs).get? i =
      some ((1 + rank_one (with_idx xs 0) x i : ℕ) : ℚ) := by
  unfold rank_first
  rw [List.get?_map, with_idx_get, hx]
  simp

theorem rank_first_ge_one (xs : List ℚ) :
    ∀ v ∈ rank_first xs, (1 : ℚ) ≤ v := by
  intro v hv
  unfold rank_first at hv
  obtain ⟨p, _, hp⟩ := List.mem_map.1 hv
  rw [← hp]
  exact_mod_cast Nat.le_add_right 1 _

/-- At a strict minimum of the column, `rank(method='first')` gives
rank 1. -/
theorem rank_first_at_strict_min (xs : List ℚ) (i : ℕ) (v : ℚ)
    (hv : xs.get? i = some v)
    (hmin : ∀ j, j < xs.length → j ≠ i →
      ∃ w, xs.get? j = some w ∧ v < w) :
    (rank_first xs).get? i = some 1 := by
  rw [rank_first_get xs i v hv]
  have hzero : rank_one (with_idx xs 0) v i = 0 := by
    unfold rank_one
    rw [List.countP_eq_zero]
    intro q hq
    obtain ⟨j, hj, hget⟩ := with_idx_mem xs 0 q hq
    simp only [Nat.zero_add] at hj
    by_cases hji : j = i
    · rw [hji] at hget
      rw [hget] at hv
      cases hv
      simp [hj, hji]
    · have hjlt : j < xs.length := by
        by_contra hge
        rw [List.get?_eq_none.2 (le_of_not_lt hge)] at hget
        cases hget
      obtain ⟨w, hw, hvw⟩ := hmin j hjlt hji
      rw [hw] at hget
      cases hget
      simp only [Bool.or_eq_true, Bool.and_eq_true, decide_eq_true_eq]
      push_neg
      constructor
      · exact le_of_lt hvw
      · intro he
        exact absurd he (ne_of_gt hvw)
  rw [hzero]
  norm_num

theorem mem_label_bounds_r {s : ℤ} (h : s ∈ ([5, 4, 3, 2, 1] : List ℤ)) :
    1 ≤ s ∧ s ≤ 5 := by
  fin_cases h <;> exact ⟨by decide, by decide⟩

theorem mem_label_bounds_a {s : ℤ} (h : s ∈ ([1, 2, 3, 4, 5] : List ℤ)) :
    1 ≤ s ∧ s ≤ 5 := by
  fin_cases h <;> exact ⟨by decide, by decide⟩

theorem score_one_ok_mem {uniq : List ℚ} {labels : List ℤ} {v : ℚ} {y : ℤ}
    (h : score_one uniq labels v = .ok y) : y ∈ labels := by
  unfold score_one at h
  by_cases hcond : v < uniq.getD 0 0 ∨ uniq.getD (uniq.length - 1) 0 < v
  · rw [if_pos hcond] at h; cases h
  · rw [if_neg hcond] at h
    cases hget : labels.get? (bin_of uniq v) with
    | none => rw [hget] at h; cases h
    | some l =>
      rw [hget] at h
      cases h
      exact List.get?_mem hget

theorem qcut_first_ok_mem {vs : List ℚ} {labels rs : List ℤ}
    (h : qcut_first vs labels = .ok rs) : ∀ s ∈ rs, s ∈ labels := by
  unfold qcut_first at h
  dsimp only at h
  by_cases hc : (uniq_edges vs).length ≠ labels.length + 1
  · rw [if_pos hc] at h; cases h
  · rw [if_neg hc] at h
    intro s hs
    obtain ⟨x, _, hfx⟩ := traverseE_ok_mem h s hs
    exact score_one_ok_mem hfx

theorem mk_records_mem (rows : List (String × ℤ × ℕ × ℚ)) :
    ∀ (rs fs ms : List ℤ) (rec : RFMRecord),
      rec ∈ mk_records rows rs fs ms →
      rec.r_score ∈ rs ∧ rec.f_score ∈ fs ∧ rec.m_score ∈ ms ∧
        rec.rfm_score = rec.r_score * 100 + rec.f_score * 10 + rec.m_score := by
  induction rows with
  | nil => intro rs fs ms rec h; exact absurd h (List.not_mem_nil _)
  | cons row rows ih =>
    intro rs fs ms rec h
    cases rs with
    | nil => exact absurd h (List.not_mem_nil _)
    | cons r rs =>
      cases fs with
      | nil => exact absurd h (List.not_mem_nil _)
      | cons f fs =>
        cases ms with
        | nil => exact absurd h (List.not_mem_nil _)
        | cons m ms =>
          rcases List.mem_cons.1 h with h | h
          · rw [h]
            exact ⟨List.mem_cons_self _ _, List.mem_cons_self _ _,
              List.mem_cons_self _ _, rfl⟩
          · obtain ⟨h1, h2, h3, h4⟩ := ih rs fs ms rec h
            exact ⟨List.mem_cons_of_mem _ h1, List.mem_cons_of_mem _ h2,
              List.mem_cons_of_mem _ h3, h4⟩

theorem mk_records_get (rows : List (String × ℤ × ℕ × ℚ)) :
    ∀ (rs fs ms : List ℤ) (i : ℕ) (rec : RFMRecord),
      (mk_records rows rs fs ms).get? i = some rec →
      rows.get? i = some (rec.customer_id, rec.recency, rec.frequency,
        rec.monetary) ∧
      rs.get? i = some rec.r_score ∧ fs.get? i = some rec.f_score ∧
      ms.get? i = some rec.m_score := by
  induction rows with
  | nil => intro rs fs ms i rec h; cases h
  | cons row rows ih =>
    intro rs fs ms i rec h
    cases rs with
    | nil => cases h
    | cons r rs =>
      cases fs with
      | nil => cases h
      | cons f fs =>
        cases ms with
        | nil => cases h
        | cons m ms =>
          cases i with
          | zero =>
            simp only [mk_records, List.get?_cons_zero] at h ⊢
            cases h
            exact ⟨rfl, rfl, rfl, rfl⟩
          | succ j =>
            simp only [mk_records, List.get?_cons_succ] at h ⊢
            exact ih rs fs ms j rec h

theorem mk_records_length (rows : List (String × ℤ × ℕ × ℚ)) :
    ∀ rs fs ms : List ℤ, rows.length = rs.length → rows.length = fs.length →
      rows.length = ms.length →
      (mk_records rows rs fs ms).length = rows.length := by
  induction rows with
  | nil => intro rs fs ms _ _ _; rfl
  | cons row rows ih =>
    intro rs fs ms hr hf hm
    cases rs with
    | nil => simp at hr
    | cons r rs =>
      cases fs with
      | nil => simp at hf
      | cons f fs =>
        cases ms with
        | nil => simp at hm
        | cons m ms =>
          simp only [mk_records, List.length_cons]
          rw [ih rs fs ms (by simpa using hr) (by simpa using hf)
            (by simpa using hm)]

/-- A linearly-interpolated quantile of a sorted list never falls below a
lower bound of the list. -/
theorem quantileAt_ge (s : List ℚ) (hs : List.Sorted (· ≤ ·) s) (m : ℚ)
    (hm : ∀ x ∈ s, m ≤ x) (hne : s ≠ []) {q : ℚ} (h0 : 0 ≤ q)
    (h1 : q ≤ 1) : m ≤ quantileAt s q := by
  unfold quantileAt
  dsimp only
  have hn1 : 1 ≤ s.length := List.length_pos.2 hne
  have hnQ : (1 : ℚ) ≤ (s.length : ℚ) := by exact_mod_cast hn1
  have hpos0 : 0 ≤ q * ((s.length : ℚ) - 1) :=
    mul_nonneg h0 (by linarith)
  have hposle : q * ((s.length : ℚ) - 1) ≤ (s.length : ℚ) - 1 := by
    calc q * ((s.length : ℚ) - 1) ≤ 1 * ((s.length : ℚ) - 1) :=
          mul_le_mul_of_nonneg_right h1 (by linarith)
      _ = (s.length : ℚ) - 1 := one_mul _
  have hfloor0 : 0 ≤ (q * ((s.length : ℚ) - 1)).floor :=
    Int.floor_nonneg.2 hpos0
  have hiQ : (((q * ((s.length : ℚ) - 1)).floor.toNat : ℚ)) ≤
      q * ((s.length : ℚ) - 1) := by
    calc (((q * ((s.length : ℚ) - 1)).floor.toNat : ℚ))
        = (((q * ((s.length : ℚ) - 1)).floor : ℤ) : ℚ) := by
          exact_mod_cast Int.toNat_of_nonneg hfloor0
      _ ≤ q * ((s.length : ℚ) - 1) := Int.floor_le _
  have hilt : (q * ((s.length : ℚ) - 1)).floor.toNat < s.length := by
    have hQ : (((q * ((s.length : ℚ) - 1)).floor.toNat : ℚ)) <
        (s.length : ℚ) := lt_of_le_of_lt (hiQ.trans hposle) (by linarith)
    exact_mod_cast hQ
  have ha : s.getD (q * ((s.length : ℚ) - 1)).floor.toNat 0 ∈ s := by
    rw [List.getD_eq_getElem _ _ hilt]
    exact List.getElem_mem _
  have hma : m ≤ s.getD (q * ((s.length : ℚ) - 1)).floor.toNat 0 := hm _ ha
  have hfrac0 : 0 ≤ q * ((s.length : ℚ) - 1) -
      (((q * ((s.length : ℚ) - 1)).floor.toNat : ℚ)) := by linarith
  have hab : s.getD (q * ((s.length : ℚ) - 1)).floor.toNat 0 ≤
      s.getD ((q * ((s.length : ℚ) - 1)).floor.toNat + 1)
        (s.getD (q * ((s.length : ℚ) - 1)).floor.toNat 0) := by
    by_cases hi1 : (q * ((s.length : ℚ) - 1)).floor.toNat + 1 < s.length
    · rw [List.getD_eq_getElem _ _ hi1, List.getD_eq_getElem _ _ hilt]
      have hrel := List.Sorted.rel_get_of_lt hs
        (a := ⟨(q * ((s.length : ℚ) - 1)).floor.toNat, hilt⟩)
        (b := ⟨(q * ((s.length : ℚ) - 1)).floor.toNat + 1, hi1⟩)
        (by simp)
      simpa using hrel
    · rw [List.getD_eq_default _ _ (le_of_not_lt hi1)]
  have hprod := mul_nonneg hfrac0 (sub_nonneg.2 hab)
  linarith

theorem quantileAt_zero (s : List ℚ) : quantileAt s 0 = s.getD 0 0 := by
  unfold quantileAt
  dsimp only
  rw [zero_mul]
  have h0 : (0 : ℚ).floor = 0 := rfl
  rw [h0]
  simp

/-- The head of a sorted list equals any element that is a lower bound. -/
theorem sorted_getD_zero (s : List ℚ) (m : ℚ)
    (hs : List.Sorted (· ≤ ·) s) (hmem : m ∈ s)
    (hall : ∀ x ∈ s, m ≤ x) : s.getD 0 0 = m := by
  cases s with
  | nil => exact absurd hmem (List.not_mem_nil _)
  | cons h t =>
    rcases List.mem_cons.1 hmem with he | ht
    · simp [he]
    · have hle : h ≤ m := List.rel_of_sorted_cons hs m ht
      have hge : m ≤ h := hall h (List.mem_cons_self _ _)
      simpa using le_antisymm hle hge

theorem one_mem_quantile_edges (vs : List ℚ) (h1 : (1 : ℚ) ∈ vs)
    (hge : ∀ x ∈ vs, 1 ≤ x) : (1 : ℚ) ∈ quantile_edges vs := by
  unfold quantile_edges
  have hperm := List.perm_insertionSort (· ≤ ·) vs
  have hsorted : List.Sorted (· ≤ ·) (List.insertionSort (· ≤ ·) vs) :=
    List.sorted_insertionSort _ _
  have hmem : (1 : ℚ) ∈ List.insertionSort (· ≤ ·) vs := hperm.mem_iff.2 h1
  have hall : ∀ x ∈ List.insertionSort (· ≤ ·) vs, 1 ≤ x :=
    fun x hx => hge x (hperm.mem_iff.1 hx)
  have h0 : quantileAt (List.insertionSort (· ≤ ·) vs) 0 = 1 := by
    rw [quantileAt_zero, sorted_getD_zero _ 1 hsorted hmem hall]
  exact List.mem_map.2 ⟨0, List.mem_cons_self _ _, h0⟩

theorem quantile_edges_ge_one (vs : List ℚ) (h1 : (1 : ℚ) ∈ vs)
    (hge : ∀ x ∈ vs, 1 ≤ x) : ∀ e ∈ quantile_edges vs, 1 ≤ e := by
  intro e he
  unfold quantile_edges at he
  obtain ⟨q, hq, hqe⟩ := List.mem_map.1 he
  have hperm := List.perm_insertionSort (· ≤ ·) vs
  have hsorted : List.Sorted (· ≤ ·) (List.insertionSort (· ≤ ·) vs) :=
    List.sorted_insertionSort _ _
  have hmem : (1 : ℚ) ∈ List.insertionSort (· ≤ ·) vs := hperm.mem_iff.2 h1
  have hall : ∀ x ∈ List.insertionSort (· ≤ ·) vs, 1 ≤ x :=
    fun x hx => hge x (hperm.mem_iff.1 hx)
  have hne : List.insertionSort (· ≤ ·) vs ≠ [] :=
    List.ne_nil_of_mem hmem
  rw [← hqe]
  exact quantileAt_ge _ hsorted 1 hall hne
    (by fin_cases hq <;> norm_num) (by fin_cases hq <;> norm_num)

theorem uniq_edges_mem_iff (vs : List ℚ) (e : ℚ) :
    e ∈ uniq_edges vs ↔ e ∈ quantile_edges vs := by
  unfold uniq_edges
  rw [List.mem_dedup]
  exact (List.perm_insertionSort _ _).mem_iff

theorem uniq_edges_sorted (vs : List ℚ) :
    List.Sorted (· ≤ ·) (uniq_edges vs) := by
  unfold uniq_edges
  exact List.Pairwise.sublist (List.dedup_sublist _)
    (List.sorted_insertionSort _ _)

/-- The value 1 — the rank of the strictly most-recent customer — always
falls in the lowest bin and receives the first (inverted) label, 5. -/
theorem score_one_min (vs : List ℚ) (h1 : (1 : ℚ) ∈ vs)
    (hge : ∀ x ∈ vs, 1 ≤ x) :
    score_one (uniq_edges vs) [5, 4, 3, 2, 1] 1 = .ok 5 := by
  have hmem1 : (1 : ℚ) ∈ uniq_edges vs :=
    (uniq_edges_mem_iff vs 1).2 (one_mem_quantile_edges vs h1 hge)
  have hall : ∀ e ∈ uniq_edges vs, 1 ≤ e :=
    fun e he => quantile_edges_ge_one vs h1 hge e
      ((uniq_edges_mem_iff vs e).1 he)
  have hne : uniq_edges vs ≠ [] := List.ne_nil_of_mem hmem1
  have hhead : (uniq_edges vs).getD 0 0 = 1 :=
    sorted_getD_zero _ 1 (uniq_edges_sorted vs) hmem1 hall
  have hlpos : 0 < (uniq_edges vs).length := List.length_pos.2 hne
  have hlast_lt : (uniq_edges vs).length - 1 < (uniq_edges vs).length := by
    omega
  have hlast_mem : (uniq_edges vs).getD ((uniq_edges vs).length - 1) 0 ∈
      uniq_edges vs := by
    rw [List.getD_eq_getElem _ _ hlast_lt]
    exact List.getElem_mem _
  have hlast : 1 ≤ (uniq_edges vs).getD ((uniq_edges vs).length - 1) 0 :=
    hall _ hlast_mem
  unfold score_one
  rw [if_neg]
  · have hbin : bin_of (uniq_edges vs) 1 = 0 := by
      unfold bin_of
      rw [List.countP_eq_zero]
      intro e he
      have h1e : 1 ≤ e := hall e (List.mem_of_mem_drop he)
      simp only [decide_eq_true_eq]
      linarith
    rw [hbin]
    rfl
  · rw [hhead]
    push_neg
    exact ⟨le_refl 1, hlast⟩

theorem qcut_first_r_min {vs : List ℚ} {rs : List ℤ} {i : ℕ}
    (h : qcut_first vs [5, 4, 3, 2, 1] = .ok rs)
    (hv : vs.get? i = some 1) (hge : ∀ x ∈ vs, 1 ≤ x) :
    rs.get? i = some 5 := by
  have h1 : (1 : ℚ) ∈ vs := List.get?_mem hv
  unfold qcut_first at h
  dsimp only at h
  by_cases hc : (uniq_edges vs).length ≠ ([5, 4, 3, 2, 1] : List ℤ).length + 1
  · rw [if_pos hc] at h; cases h
  · rw [if_neg hc] at h
    obtain ⟨y, hy, hfy⟩ := traverseE_ok_get h i 1 hv
    rw [score_one_min vs h1 hge] at hfy
    cases hfy
    exact hy

/-- Claim C9: on every successful run of `compute_rfm_scores`, each
quintile score is an integer in `[1, 5]`,
`rfm_score = r_score·100 + f_score·10 + m_score ∈ [111, 555]`, and the
recency ranking is inverted: a customer whose recency is strictly
smallest (the most recent) receives `r_score = 5`. -/
theorem rfm_score_invariants (tx : List Transaction) (ref : ℤ)
    (recs : List RFMRecord) (h : compute_rfm_scores tx ref = .ok recs) :
    (∀ r ∈ recs,
      (1 ≤ r.r_score ∧ r.r_score ≤ 5) ∧ (1 ≤ r.f_score ∧ r.f_score ≤ 5) ∧
      (1 ≤ r.m_score ∧ r.m_score ≤ 5) ∧
      r.rfm_score = r.r_score * 100 + r.f_score * 10 + r.m_score ∧
      111 ≤ r.rfm_score ∧ r.rfm_score ≤ 555) ∧
    (∀ r ∈ recs, (∀ r2 ∈ recs, r2 ≠ r → r.recency < r2.recency) →
      r.r_score = 5) := by
  obtain ⟨rs, fs, ms, hA, hB, hC, hrecs⟩ := compute_rfm_ok_decomp h
  have lenA : (rfm_rows tx ref).length = rs.length := by
    rw [qcut_first_ok_length hA, rank_first_length, List.length_map]
  have lenB : (rfm_rows tx ref).length = fs.length := by
    rw [qcut_first_ok_length hB, rank_first_length, List.length_map]
  have lenC : (rfm_rows tx ref).length = ms.length := by
    rw [qcut_first_ok_length hC, rank_first_length, List.length_map]
  constructor
  · intro r hr
    rw [hrecs] at hr
    obtain ⟨hrs, hfs, hms, hrfm⟩ := mk_records_mem _ rs fs ms r hr
    have hrb := mem_label_bounds_r (qcut_first_ok_mem hA _ hrs)
    have hfb := mem_label_bounds_a (qcut_first_ok_mem hB _ hfs)
    have hmb := mem_label_bounds_a (qcut_first_ok_mem hC _ hms)
    exact ⟨hrb, hfb, hmb, hrfm, by omega, by omega⟩
  · intro r hr hmin
    rw [hrecs] at hr hmin
    obtain ⟨i, hi⟩ := List.mem_iff_get?.1 hr
    obtain ⟨hrow, hris, _, _⟩ := mk_records_get _ rs fs ms i r hi
    have hnodup : ((rfm_rows tx ref).map (·.1)).Nodup := by
      have hk : (rfm_rows tx ref).map (·.1) = sortedKeys tx := by
        unfold rfm_rows
        rw [List.map_map]
        exact List.map_id _
      rw [hk]
      unfold sortedKeys sortStr
      exact ((List.perm_insertionSort _ _).nodup_iff).2 (List.nodup_dedup _)
    have hxi : ((rfm_rows tx ref).map (fun p => ((p.2.1 : ℚ)))).get? i =
        some ((r.recency : ℚ)) := by
      rw [List.get?_map, hrow]
      rfl
    have hminxs : ∀ j,
        j < ((rfm_rows tx ref).map (fun p => ((p.2.1 : ℚ)))).length →
        j ≠ i → ∃ w,
          ((rfm_rows tx ref).map (fun p => ((p.2.1 : ℚ)))).get? j = some w ∧
          ((r.recency : ℚ)) < w := by
      intro j hj hij
      rw [List.length_map] at hj
      obtain ⟨rowj, hrowj⟩ : ∃ rowj, (rfm_rows tx ref).get? j = some rowj := by
        cases hg : (rfm_rows tx ref).get? j with
        | none =>
          rw [List.get?_eq_none] at hg
          omega
        | some rj => exact ⟨rj, rfl⟩
      have hlenrecs : (mk_records (rfm_rows tx ref) rs fs ms).length =
          (rfm_rows tx ref).length := mk_records_length _ rs fs ms lenA lenB lenC
      obtain ⟨r2, hr2⟩ :
          ∃ r2, (mk_records (rfm_rows tx ref) rs fs ms).get? j = some r2 := by
        cases hg : (mk_records (rfm_rows tx ref) rs fs ms).get? j with
        | none =>
          rw [List.get?_eq_none, hlenrecs] at hg
          omega
        | some r2 => exact ⟨r2, rfl⟩
      obtain ⟨hrow2, _, _, _⟩ := mk_records_get _ rs fs ms j r2 hr2
      have hilen : i < ((rfm_rows tx ref).map (·.1)).length := by
        rw [List.length_map]
        have := (List.get?_eq_some.1 hi).1
        rw [mk_records_length _ rs fs ms lenA lenB lenC] at this
        exact this
      have hne2 : r2 ≠ r := by
        intro he
        have hki : ((rfm_rows tx ref).map (·.1)).get? i =
            some r.customer_id := by
          rw [List.get?_map, hrow]
          rfl
        have hkj : ((rfm_rows tx ref).map (·.1)).get? j =
            some r2.customer_id := by
          rw [List.get?_map, hrow2]
          rfl
        rw [he] at hkj
        exact hij (List.get?_inj hilen hnodup (hki.trans hkj.symm)).symm
      have hlt := hmin r2 (List.get?_mem hr2) hne2
      refine ⟨((r2.recency : ℚ)), ?_, by exact_mod_cast hlt⟩
      rw [List.get?_map, hrow2]
      rfl
    have hrank := rank_first_at_strict_min
      ((rfm_rows tx ref).map (fun p => ((p.2.1 : ℚ)))) i _ hxi hminxs
    have hfive := qcut_first_r_min hA hrank
      (rank_first_ge_one ((rfm_rows tx ref).map (fun p => ((p.2.1 : ℚ)))))
    rw [hris] at hfive
    exact Option.some.inj hfive

/-- Witness for `rfm_score_invariants` on the five-customer input: the
record of customer C1, whose recency 1 is strictly smallest, has
`r_score = 5`, and all its scores lie in range. -/
theorem rfm_score_invariants_witness :
    ((1 ≤ (⟨"C1", 1, 1, 10, 5, 1, 1, 511⟩ : RFMRecord).r_score ∧
      (⟨"C1", 1, 1, 10, 5, 1, 1, 511⟩ : RFMRecord).r_score ≤ 5) ∧
     (1 ≤ (⟨"C1", 1, 1, 10, 5, 1, 1, 511⟩ : RFMRecord).f_score ∧
      (⟨"C1", 1, 1, 10, 5, 1, 1, 511⟩ : RFMRecord).f_score ≤ 5) ∧
     (1 ≤ (⟨"C1", 1, 1, 10, 5, 1, 1, 511⟩ : RFMRecord).m_score ∧
      (⟨"C1", 1, 1, 10, 5, 1, 1, 511⟩ : RFMRecord).m_score ≤ 5) ∧
     (⟨"C1", 1, 1, 10, 5, 1, 1, 511⟩ : RFMRecord).rfm_score =
       (⟨"C1", 1, 1, 10, 5, 1, 1, 511⟩ : RFMRecord).r_score * 100 +
       (⟨"C1", 1, 1, 10, 5, 1, 1, 511⟩ : RFMRecord).f_score * 10 +
       (⟨"C1", 1, 1, 10, 5, 1, 1, 511⟩ : RFMRecord).m_score ∧
     111 ≤ (⟨"C1", 1, 1, 10, 5, 1, 1, 511⟩ : RFMRecord).rfm_score ∧
     (⟨"C1", 1, 1, 10, 5, 1, 1, 511⟩ : RFMRecord).rfm_score ≤ 555) ∧
    (⟨"C1", 1, 1, 10, 5, 1, 1, 511⟩ : RFMRecord).r_score = 5 := by
  have hok : compute_rfm_scores tx_five 20 =
      .ok [⟨"C1", 1, 1, 10, 5, 1, 1, 511⟩, ⟨"C2", 2, 1, 20, 4, 2, 2, 422⟩,
           ⟨"C3", 3, 1, 30, 3, 3, 3, 333⟩, ⟨"C4", 4, 1, 40, 2, 4, 4, 244⟩,
           ⟨"C5", 5, 1, 50, 1, 5, 5, 155⟩] := by decide
  have hinv := rfm_score_invariants tx_five 20 _ hok
  refine ⟨hinv.1 _ (by decide), hinv.2 _ (by decide) ?_⟩
  intro r2 hr2 hne
  fin_cases hr2 <;> first
    | exact absurd rfl hne
    | decide

/-- Claim C2 counterexample: the input of 2 RFM records with `k = 4`
makes `segment_customers` raise — but the raised error is the clustering
library's `ValueError`, not an `InvalidClusterCountError` (the repository
defines no such class). -/
theorem segment_invalid_k_counterexample :
    segment_customers_raises rfm_pair 4 =
      some (.valueError "n_samples should be >= n_clusters") ∧
    segment_customers_raises rfm_pair 4 ≠ some .invalidClusterCount := by
  refine ⟨by decide, by decide⟩

/-- Claim C2 (amended): for a non-empty RFM frame with fewer records than
the requested cluster count, `segment_customers` fails — with the
clustering library's `ValueError` (`n_samples < n_clusters`), since no
`InvalidClusterCountError` exists anywhere in the code. -/
theorem segment_invalid_k_raises_valueerror (rfm : List RFMRecord) (k : ℕ)
    (hne : rfm ≠ []) (hk : rfm.length < k) :
    segment_customers_raises rfm k =
      some (.valueError "n_samples should be >= n_clusters") := by
  have h0 : rfm.length ≠ 0 := fun h => hne (List.length_eq_zero.1 h)
  unfold segment_customers_raises
  rw [if_neg h0, if_neg (by omega), if_pos hk]

/-- Witness for `segment_invalid_k_raises_valueerror` at 2 records,
`k = 4`. -/
theorem segment_invalid_k_raises_valueerror_witness :
    segment_customers_raises rfm_pair 4 =
      some (.valueError "n_samples should be >= n_clusters") :=
  segment_invalid_k_raises_valueerror rfm_pair 4 (by decide) (by decide)

/-- Claim C1 counterexample: a non-empty transaction set whose rank
columns have fewer than 5 distinct values (one customer, so one rank), on
which `compute_rfm_scores` raises the pandas `ValueError` from quantile
binning instead of returning mid scores. -/
theorem rfm_degenerate_counterexample :
    tx_single ≠ [] ∧
    (rank_first ((rfm_rows tx_single 20).map
      (fun r => ((r.2.1 : ℚ))))).dedup.length < 5 ∧
    compute_rfm_scores tx_single 20 =
      .error (.valueError
        "Bin labels must be one fewer than the number of bin edges") := by
  refine ⟨by decide, by decide, by decide⟩

/-- Claim C1 (amended): ranking uses `method='first'`, so the distinct
rank values number exactly the customers.  With one customer the quantile
cutpoints collapse and `compute_rfm_scores` raises pandas'
label/bin-count `ValueError` — there is no mid-score fallback; with 2–4
customers the interpolated cutpoints remain distinct, the call succeeds,
and the affected customers receive extreme scores, not a uniform mid
score (2 customers: r-scores 5 and 1, f-scores 1 and 5 despite tied
frequencies). -/
theorem rfm_degenerate_behavior :
    compute_rfm_scores tx_single 20 =
      .error (.valueError
        "Bin labels must be one fewer than the number of bin edges") ∧
    compute_rfm_scores tx_two 20 =
      .ok [⟨"C1", 10, 1, 100, 5, 1, 5, 515⟩,
           ⟨"C2", 15, 1, 50, 1, 5, 1, 151⟩] := by
  refine ⟨by decide, by decide⟩

/-- Claim C3 counterexample: a non-empty transaction list (one customer,
one transaction) on which `compute_rfm_scores` does not succeed, contrary
to the claim that it succeeds on every non-empty input. -/
theorem rfm_insufficient_counterexample :
    tx_single_b ≠ [] ∧ (compute_rfm_scores tx_single_b 20).isOk = false := by
  refine ⟨by decide, by decide⟩

/-- Claim C3 (amended): `compute_rfm_scores` never raises an
`InsufficientDataError` (no such class exists): on empty input it raises
pandas' quantile-binning `ValueError`; it can also fail on non-empty
input (single customer); and whenever it succeeds it returns exactly one
RFM record per distinct `customer_id`, in sorted id order. -/
theorem rfm_empty_error_and_one_record_per_customer :
    compute_rfm_scores [] 0 =
      .error (.valueError
        "Bin labels must be one fewer than the number of bin edges") ∧
    ∀ (tx : List Transaction) (ref : ℤ) (recs : List RFMRecord),
      compute_rfm_scores tx ref = .ok recs →
      recs.map (·.customer_id) = sortedKeys tx := by
  refine ⟨by decide, ?_⟩
  intro tx ref recs h
  obtain ⟨rs, fs, ms, hA, hB, hC, hrecs⟩ := compute_rfm_ok_decomp h
  have lenA : (rfm_rows tx ref).length = rs.length := by
    rw [qcut_first_ok_length hA, rank_first_length, List.length_map]
  have lenB : (rfm_rows tx ref).length = fs.length := by
    rw [qcut_first_ok_length hB, rank_first_length, List.length_map]
  have lenC : (rfm_rows tx ref).length = ms.length := by
    rw [qcut_first_ok_length hC, rank_first_length, List.length_map]
  rw [hrecs, mk_records_map_fst _ rs fs ms lenA lenB lenC]
  unfold rfm_rows
  rw [List.map_map]
  exact List.map_id _

/-- Witness for the success branch of
`rfm_empty_error_and_one_record_per_customer`: the five-customer input. -/
theorem rfm_one_record_per_customer_witness :
    ([⟨"C1", 1, 1, 10, 5, 1, 1, 511⟩, ⟨"C2", 2, 1, 20, 4, 2, 2, 422⟩,
      ⟨"C3", 3, 1, 30, 3, 3, 3, 333⟩, ⟨"C4", 4, 1, 40, 2, 4, 4, 244⟩,
      ⟨"C5", 5, 1, 50, 1, 5, 5, 155⟩] : List RFMRecord).map
        (·.customer_id) = sortedKeys tx_five :=
  rfm_empty_error_and_one_record_per_customer.2 tx_five 20 _ (by decide)

theorem supportOf_nonneg (rows : List (List String)) (S : List String) :
    0 ≤ supportOf rows S :=
  div_nonneg (Nat.cast_nonneg _) (Nat.cast_nonneg _)

/-- Support is antitone under itemset inclusion: a row containing `S`
contains any `A ⊆ S`. -/
theorem supportOf_anti (rows : List (List String)) {A S : List String}
    (h : A ⊆ S) : supportOf rows S ≤ supportOf rows A := by
  unfold supportOf
  rcases Nat.eq_zero_or_pos rows.length with h0 | hpos
  · simp [h0]
  · have hc : rows.countP (fun row => S.all (fun x => decide (x ∈ row))) ≤
        rows.countP (fun row => A.all (fun x => decide (x ∈ row))) := by
      apply List.countP_mono_left
      intro row _ hS
      simp only [List.all_eq_true, decide_eq_true_eq] at hS ⊢
      exact fun x hx => hS x (h hx)
    have hn : (0 : ℚ) < (rows.length : ℚ) := by exact_mod_cast hpos
    exact (div_le_div_right hn).mpr (by exact_mod_cast hc)

theorem basket_products_nodup (tx : List Transaction) :
    (basket_products tx).Nodup := by
  unfold basket_products sortStr
  exact ((List.perm_insertionSort _ _).nodup_iff).2 (List.nodup_dedup _)

/-- Membership in `find_frequent_itemsets`, unpacked. -/
theorem mem_find_frequent {tx : List Transaction} {ms : ℚ} {k : ℕ}
    {p : List String × ℚ} (h : p ∈ find_frequent_itemsets tx ms k) :
    0 < ms ∧ List.Sublist p.1 (basket_products tx) ∧ p.1 ≠ [] ∧ p.1.length ≤ k ∧
      p.2 = supportOf (basket_rows tx) p.1 ∧ ms ≤ p.2 := by
  unfold find_frequent_itemsets at h
  split_ifs at h with hms
  · exact absurd h (List.not_mem_nil _)
  · obtain ⟨S, hSfil, hSp⟩ := List.mem_map.1 h
    obtain ⟨hSsub, hSpred⟩ := List.mem_filter.1 hSfil
    simp only [Bool.and_eq_true, Bool.not_eq_true',
      decide_eq_true_eq] at hSpred
    refine ⟨lt_of_not_le hms, ?_, ?_, ?_, ?_, ?_⟩
    · rw [← hSp]; exact List.mem_sublists.1 hSsub
    · rw [← hSp]
      intro hnil
      have hS0 : S = [] := hnil
      rw [hS0] at hSpred
      simp at hSpred
    · rw [← hSp]; exact hSpred.1.2
    · rw [← hSp]
    · rw [← hSp]; exact hSpred.2

/-- Membership in `rules_of_itemset`, unpacked. -/
theorem mem_rules_of_itemset {rows : List (List String)}
    {p : List String × ℚ} {r : RuleRec} (h : r ∈ rules_of_itemset rows p) :
    ∃ A, List.Sublist A p.1 ∧ A ≠ [] ∧ A ≠ p.1 ∧
      r.antecedents = A ∧
      r.consequents = p.1.filter (fun x => decide (x ∉ A)) ∧
      r.support = p.2 ∧ r.confidence = p.2 / supportOf rows A ∧
      r.lift = r.confidence / supportOf rows
        (p.1.filter (fun x => decide (x ∉ A))) := by
  unfold rules_of_itemset at h
  obtain ⟨A, hAfil, hAr⟩ := List.mem_map.1 h
  obtain ⟨hAsub, hApred⟩ := List.mem_filter.1 hAfil
  simp only [Bool.and_eq_true, Bool.not_eq_true',
    decide_eq_true_eq] at hApred
  have hAnil : A ≠ [] := by
    intro hnil
    rw [hnil] at hApred
    simp at hApred
  refine ⟨A, List.mem_sublists.1 hAsub, hAnil, hApred.2,
    ?_, ?_, ?_, ?_, ?_⟩ <;> rw [← hAr]

/-- Membership in the mined rule list, unpacked down to the frequent
itemset and the partition it came from. -/
theorem mem_mine_baskets_decomp {tx : List Transaction} {ms mc ml : ℚ}
    {r : RuleRec} (h : r ∈ mine_baskets tx ms mc ml) :
    ∃ p ∈ find_frequent_itemsets tx ms 2, 2 ≤ p.1.length ∧
      r ∈ rules_of_itemset (basket_rows tx) p ∧ mc ≤ r.confidence := by
  unfold mine_baskets generate_association_rules at h
  have hkept := (List.perm_insertionSort _ _).mem_iff.1 h
  obtain ⟨hraw, hpred⟩ := List.mem_filter.1 hkept
  simp only [Bool.and_eq_true, Bool.or_eq_true, decide_eq_true_eq] at hpred
  obtain ⟨p, hpfil, hrp⟩ := List.mem_flatMap.1 hraw
  obtain ⟨hpfreq, hplen⟩ := List.mem_filter.1 hpfil
  simp only [decide_eq_true_eq] at hplen
  exact ⟨p, hpfreq, hplen, hrp, hpred.1⟩

/-- If `A` is a proper sub-itemset of a duplicate-free `S`, the
complement `S.filter (· ∉ A)` is non-empty. -/
theorem filter_not_mem_ne_nil {S A : List String} (hS : S.Nodup)
    (hsub : List.Sublist A S) (hne : A ≠ S) :
    S.filter (fun x => decide (x ∉ A)) ≠ [] := by
  intro hnil
  have hsubset : S ⊆ A := by
    intro x hx
    by_contra hxA
    have hmem : x ∈ S.filter (fun x => decide (x ∉ A)) :=
      List.mem_filter.2 ⟨hx, by simpa using hxA⟩
    rw [hnil] at hmem
    exact List.not_mem_nil _ hmem
  have hlt : A.length < S.length :=
    lt_of_le_of_ne hsub.length_le (fun he => hne (hsub.eq_of_length he))
  have hcard : S.length ≤ A.length := by
    have h1 : S.toFinset ⊆ A.toFinset := by
      intro x hx
      rw [List.mem_toFinset] at hx ⊢
      exact hsubset hx
    calc S.length = S.toFinset.card := (List.toFinset_card_of_nodup hS).symm
      _ ≤ A.toFinset.card := Finset.card_le_card h1
      _ ≤ A.length := List.toFinset_card_le A
  omega

/-- Claim C7: every mined association rule has non-empty, disjoint
antecedent and consequent, confidence in `[0, 1]` and lift `≥ 0`. -/
theorem rule_invariants (tx : List Transaction)
    (min_support min_confidence min_lift : ℚ) (r : RuleRec)
    (hr : r ∈ mine_baskets tx min_support min_confidence min_lift) :
    r.antecedents ≠ [] ∧ r.consequents ≠ [] ∧
    (∀ x ∈ r.antecedents, x ∉ r.consequents) ∧
    0 ≤ r.confidence ∧ r.confidence ≤ 1 ∧ 0 ≤ r.lift := by
  obtain ⟨p, hp, hlen2, hrp, hconf⟩ := mem_mine_baskets_decomp hr
  obtain ⟨hms, hpsub, hpne, hplen, hpsup, hmsle⟩ := mem_find_frequent hp
  obtain ⟨A, hAsub, hAne, hAneS, hant, hcons, hsup, hconfeq, hlift⟩ :=
    mem_rules_of_itemset hrp
  have hSnodup : p.1.Nodup := (basket_products_nodup tx).sublist hpsub
  have hsuppos : 0 < supportOf (basket_rows tx) p.1 :=
    lt_of_lt_of_le hms (hpsup ▸ hmsle)
  have hAge : supportOf (basket_rows tx) p.1 ≤
      supportOf (basket_rows tx) A := supportOf_anti _ hAsub.subset
  have hApos : 0 < supportOf (basket_rows tx) A :=
    lt_of_lt_of_le hsuppos hAge
  have hc0 : 0 ≤ r.confidence := by
    rw [hconfeq, hpsup]
    exact div_nonneg (le_of_lt hsuppos) (le_of_lt hApos)
  refine ⟨?_, ?_, ?_, hc0, ?_, ?_⟩
  · rw [hant]; exact hAne
  · rw [hcons]; exact filter_not_mem_ne_nil hSnodup hAsub hAneS
  · intro x hx
    rw [hant] at hx
    rw [hcons]
    intro hxC
    have := List.mem_filter.1 hxC
    simp only [decide_eq_true_eq] at this
    exact this.2 hx
  · rw [hconfeq, hpsup]
    exact (div_le_one hApos).mpr hAge
  · rw [hlift]
    exact div_nonneg hc0 (supportOf_nonneg _ _)

/-- Witness for `rule_invariants`: the rule `A → B` mined in the
3-customer, 2-product scenario. -/
theorem rule_invariants_witness :
    (⟨["A"], ["B"], 1, 1, 1⟩ : RuleRec).antecedents ≠ [] ∧
    (⟨["A"], ["B"], 1, 1, 1⟩ : RuleRec).consequents ≠ [] ∧
    (∀ x ∈ (⟨["A"], ["B"], 1, 1, 1⟩ : RuleRec).antecedents,
      x ∉ (⟨["A"], ["B"], 1, 1, 1⟩ : RuleRec).consequents) ∧
    0 ≤ (⟨["A"], ["B"], 1, 1, 1⟩ : RuleRec).confidence ∧
    (⟨["A"], ["B"], 1, 1, 1⟩ : RuleRec).confidence ≤ 1 ∧
    0 ≤ (⟨["A"], ["B"], 1, 1, 1⟩ : RuleRec).lift :=
  rule_invariants tx_three_by_two (1/20) (3/10) 1 ⟨["A"], ["B"], 1, 1, 1⟩
    (by decide)

theorem flatMap_sublist {α β : Type} (g : α → List β) {l₁ l₂ : List α}
    (h : List.Sublist l₁ l₂) : List.Sublist (l₁.flatMap g) (l₂.flatMap g) := by
  induction h with
  | slnil => exact List.Sublist.refl _
  | cons a h ih =>
    simp only [List.flatMap_cons]
    exact ih.trans (List.sublist_append_right _ _)
  | cons₂ a h ih =>
    simp only [List.flatMap_cons]
    exact ih.append_left _

/-- Raising `min_support` (within the positive range) shrinks the
frequent-itemset list to a sublist. -/
theorem find_frequent_sublist (tx : List Transaction) {s1 s2 : ℚ}
    (h0 : 0 < s1) (h12 : s1 ≤ s2) :
    List.Sublist (find_frequent_itemsets tx s2 2) (find_frequent_itemsets tx s1 2) := by
  unfold find_frequent_itemsets
  rw [if_neg (not_le.mpr h0), if_neg (not_le.mpr (lt_of_lt_of_le h0 h12))]
  apply List.Sublist.map
  apply List.monotone_filter_right
  intro S hS
  simp only [Bool.and_eq_true, decide_eq_true_eq] at hS ⊢
  exact ⟨⟨hS.1.1, hS.1.2⟩, le_trans h12 hS.2⟩

/-- Claim C6 (amended): for positive support thresholds `s1 ≤ s2`,
mining at `s2` returns at most as many rules as mining at `s1`. -/
theorem rule_count_antitone (tx : List Transaction) (mc ml : ℚ)
    {s1 s2 : ℚ} (h0 : 0 < s1) (h12 : s1 ≤ s2) :
    (mine_baskets tx s2 mc ml).length ≤ (mine_baskets tx s1 mc ml).length := by
  unfold mine_baskets generate_association_rules
  rw [(List.perm_insertionSort _ _).length_eq,
    (List.perm_insertionSort _ _).length_eq]
  apply List.Sublist.length_le
  apply List.Sublist.filter
  apply flatMap_sublist
  apply List.Sublist.filter
  exact find_frequent_sublist tx h0 h12

/-- Witness for `rule_count_antitone` at `s1 = 1/20 ≤ s2 = 1/2` on the
3-customer scenario. -/
theorem rule_count_antitone_witness :
    (mine_baskets tx_three_by_two (1/2) (3/10) 1).length ≤
      (mine_baskets tx_three_by_two (1/20) (3/10) 1).length :=
  rule_count_antitone tx_three_by_two (3/10) 1 (by decide) (by decide)

/-- Counterexample to Claim C6 as stated: with the (degenerate but
admissible) threshold pair `s1 = 0 ≤ s2 = 1/2`, raising `min_support`
increases the rule count from 0 to 2 — at `min_support = 0` mlxtend
`apriori` raises `ValueError` (its documented `(0, 1]` domain check),
which `find_frequent_itemsets` catches, returning no itemsets at all. -/
theorem rule_count_monotone_counterexample :
    (0 : ℚ) ≤ 1/2 ∧
    (mine_baskets tx_three_by_two 0 (3/10) 1).length <
      (mine_baskets tx_three_by_two (1/2) (3/10) 1).length := by
  refine ⟨by decide, by decide⟩

/-- Claim C8: for ratings `r ∈ [1,5]` the sentiment score is exactly
`(r−1)/4×100` (so 5 ↦ 100, 3 ↦ 50, 1 ↦ 0), the score is monotone in the
rating, and the label is `Positive` iff `r ≥ 4`, `Negative` iff `r < 3`,
`Neutral` otherwise. -/
theorem sentiment_score_properties (tx : List Transaction) (t t2 : Transaction)
    (ht : t ∈ tx) (ht2 : t2 ∈ tx) (h1 : 1 ≤ t.rating) (h5 : t.rating ≤ 5)
    (hmono : t.rating ≤ t2.rating) :
    (sentiment_score t.rating, categorize_sentiment t.rating) ∈
        calculate_sentiment_scores tx ∧
    sentiment_score t.rating = (t.rating - 1) / 4 * 100 ∧
    sentiment_score t.rating ≤ sentiment_score t2.rating ∧
    (categorize_sentiment t.rating = "Positive" ↔ 4 ≤ t.rating) ∧
    (categorize_sentiment t.rating = "Negative" ↔ t.rating < 3) ∧
    (categorize_sentiment t.rating = "Neutral" ↔ 3 ≤ t.rating ∧ t.rating < 4) ∧
    sentiment_score 5 = 100 ∧ sentiment_score 3 = 50 ∧ sentiment_score 1 = 0 := by
  refine ⟨List.mem_map_of_mem _ ht, rfl, ?_, ?_, ?_, ?_, by decide, by decide, by decide⟩
  · unfold sentiment_score
    linarith
  · unfold categorize_sentiment
    split_ifs with ha hb
    · simpa using ha
    · exact iff_of_false (by decide) ha
    · exact iff_of_false (by decide) ha
  · unfold categorize_sentiment
    split_ifs with ha hb
    · exact iff_of_false (by decide) (by linarith)
    · exact iff_of_false (by decide) (not_lt.mpr hb)
    · simpa using lt_of_not_le hb
  · unfold categorize_sentiment
    split_ifs with ha hb
    · exact iff_of_false (by decide) (fun h => absurd ha (not_le.mpr h.2))
    · exact iff_of_true rfl ⟨hb, lt_of_not_le ha⟩
    · exact iff_of_false (by decide) (fun h => hb h.1)

/-- Witness for `sentiment_score_properties` at the one-transaction list
with rating 3 and a second transaction with rating 4. -/
theorem sentiment_score_properties_witness :
    (sentiment_score 3, categorize_sentiment 3) ∈
        calculate_sentiment_scores
          [⟨"C1", "A", "X", 0, 10, 3⟩, ⟨"C1", "A", "X", 0, 10, 4⟩] ∧
    sentiment_score 3 = (3 - 1) / 4 * 100 ∧
    sentiment_score 3 ≤ sentiment_score 4 ∧
    (categorize_sentiment 3 = "Positive" ↔ (4 : ℚ) ≤ 3) ∧
    (categorize_sentiment 3 = "Negative" ↔ (3 : ℚ) < 3) ∧
    (categorize_sentiment 3 = "Neutral" ↔ (3 : ℚ) ≤ 3 ∧ (3 : ℚ) < 4) ∧
    sentiment_score 5 = 100 ∧ sentiment_score 3 = 50 ∧ sentiment_score 1 = 0 :=
  sentiment_score_properties
    [⟨"C1", "A", "X", 0, 10, 3⟩, ⟨"C1", "A", "X", 0, 10, 4⟩]
    ⟨"C1", "A", "X", 0, 10, 3⟩ ⟨"C1", "A", "X", 0, 10, 4⟩
    (by decide) (by decide) (by decide) (by decide) (by decide)

/-- Claim C10: in the `_profile_segments` decision table, for every value
of the three booleans (equivalently, every comparison outcome of the
cluster means against the medians, which is total over ordinary numbers),
one of the first five rules matches, so the `New Customers` rule and the
default `Segment N` name are never assigned. -/
theorem segment_naming_first_five (recency frequency monetary
    median_recency median_frequency median_monetary : ℚ) (sid : ℕ) :
    profile_segment_name_of_means recency frequency monetary
        median_recency median_frequency median_monetary sid ∈
      ["Champions", "Loyal Customers", "Big Spenders", "At Risk",
        "Value Seekers"] ∧
    profile_segment_name_of_means recency frequency monetary
        median_recency median_frequency median_monetary sid ≠
      "New Customers" := by
  unfold profile_segment_name_of_means profile_segment_name
  by_cases h1 : recency < median_recency <;>
    by_cases h2 : median_frequency < frequency <;>
      by_cases h3 : median_monetary < monetary <;>
        simp [h1, h2, h3]

theorem rank_items_map_fst (i : ℕ) (l : List RecItem) :
    (rank_items i l).map Prod.fst = l := by
  induction l generalizing i with
  | nil => rfl
  | cons x xs ih => simp [rank_items, ih]

theorem rank_items_length (i : ℕ) (l : List RecItem) :
    (rank_items i l).length = l.length := by
  induction l generalizing i with
  | nil => rfl
  | cons x xs ih => simp [rank_items, ih]

theorem rank_items_map_snd (i : ℕ) (l : List RecItem) :
    (rank_items i l).map Prod.snd = List.range' i l.length := by
  induction l generalizing i with
  | nil => rfl
  | cons x xs ih => simp [rank_items, ih, List.range']

theorem filter_orderedInsert_key (x : RecItem) (l : List RecItem) (c : ℕ) :
    (List.orderedInsert (fun a b => priority_key a ≤ priority_key b) x
        l).filter (fun r => decide (priority_key r = c)) =
      (x :: l).filter (fun r => decide (priority_key r = c)) := by
  induction l with
  | nil => rfl
  | cons y ys ih =>
    by_cases h : priority_key x ≤ priority_key y
    · simp [List.orderedInsert, h]
    · have hord : List.orderedInsert
          (fun a b => priority_key a ≤ priority_key b) x (y :: ys) =
          y :: List.orderedInsert
            (fun a b => priority_key a ≤ priority_key b) x ys := by
        simp [List.orderedInsert, h]
      rw [hord]
      by_cases hyc : priority_key y = c
      · have hxc : ¬ priority_key x = c :=
          fun hx => h (le_of_eq (hx.trans hyc.symm))
        simp [List.filter_cons, hyc, hxc, ih]
      · simp [List.filter_cons, hyc, ih]

theorem filter_sort_recs (l : List RecItem) (c : ℕ) :
    (sort_recs l).filter (fun r => decide (priority_key r = c)) =
      l.filter (fun r => decide (priority_key r = c)) := by
  induction l with
  | nil => rfl
  | cons x xs ih =>
    calc (sort_recs (x :: xs)).filter (fun r => decide (priority_key r = c))
        = (x :: sort_recs xs).filter (fun r => decide (priority_key r = c)) :=
          filter_orderedInsert_key x (sort_recs xs) c
      _ = (x :: xs).filter (fun r => decide (priority_key r = c)) := by
          simp only [List.filter_cons, ih]

/-- Claim C5: the recommendation list is sorted by priority
High → Medium → Low (via the numeric key the source sorts on), the ranks
form the contiguous sequence `1..N`, and the sort is stable: for each
priority class, the output preserves exactly the generators' emission
order. -/
theorem recommendations_sorted_ranked_stable (segments : List SegmentSummary)
    (affinity_rules : List RuleRec) (sd : SentimentData)
    (bundles : List SuggestedBundle) :
    List.Sorted (· ≤ ·)
      ((generate_recommendations segments affinity_rules sd bundles).map
        (fun p => priority_key p.1)) ∧
    (generate_recommendations segments affinity_rules sd bundles).map
        Prod.snd =
      List.range' 1
        (generate_recommendations segments affinity_rules sd bundles).length ∧
    ∀ c : ℕ,
      ((generate_recommendations segments affinity_rules sd bundles).map
          Prod.fst).filter (fun r => decide (priority_key r = c)) =
        (candidate_recs segments affinity_rules sd bundles).filter
          (fun r => decide (priority_key r = c)) := by
  refine ⟨?_, ?_, ?_⟩
  · have hs := List.sorted_insertionSort
      (fun a b => priority_key a ≤ priority_key b)
      (candidate_recs segments affinity_rules sd bundles)
    have hmap : (generate_recommendations segments affinity_rules sd
        bundles).map (fun p => priority_key p.1) =
        (sort_recs (candidate_recs segments affinity_rules sd bundles)).map
          priority_key := by
      have hcomp : (generate_recommendations segments affinity_rules sd
          bundles).map (fun p => priority_key p.1) =
          ((generate_recommendations segments affinity_rules sd
            bundles).map Prod.fst).map priority_key := by
        rw [List.map_map]
        rfl
      rw [hcomp, generate_recommendations, rank_items_map_fst]
    rw [hmap]
    exact (List.pairwise_map).2 hs
  · rw [generate_recommendations, rank_items_map_snd, rank_items_length]
  · intro c
    rw [generate_recommendations, rank_items_map_fst]
    exact filter_sort_recs _ c

/-- Claim C4: for 3 customers and 2 products where every customer buys
both products, the pipeline yields the all-ones basket matrix, exactly one
frequent itemset of size 2 with support 1, a pair of association rules
each with confidence 1 and lift 1 (mined at the default
`min_support = 0.05`, `min_confidence = 0.3` and a rule-stage lift
threshold of 1, the largest at which the independent pair survives the
source's `lift ≥ min_lift` filter), and `suggest_bundles` of those rules
at `min_lift = 2` is empty. -/
theorem basket_scenario_three_customers :
    basket_rows tx_three_by_two = [["A", "B"], ["A", "B"], ["A", "B"]] ∧
    (find_frequent_itemsets tx_three_by_two (1/20) 2).filter
        (fun p => decide (p.1.length = 2)) = [(["A", "B"], 1)] ∧
    (mine_baskets tx_three_by_two (1/20) (3/10) 1).length = 2 ∧
    (mine_baskets tx_three_by_two (1/20) (3/10) 1).all
        (fun r => decide (r.confidence = 1) && decide (r.lift = 1)) = true ∧
    suggest_bundles (mine_baskets tx_three_by_two (1/20) (3/10) 1) 2 10 = [] := by
  refine ⟨by decide, by decide, by decide, by decide, by decide⟩

end ShopSense
